import Mathlib

/-!
# Verification of the gradient-boosted-trees core (losses, ranking index, inference)

Shallow embedding of the GBDT loss layer
(`learner/gradient_boosted_trees/gradient_boosted_trees_loss.cc`) and the
ensemble inference path
(`model/gradient_boosted_trees/gradient_boosted_trees.cc`).

Modelling conventions:
* Machine floats (`float` / `double`) are modelled as exact rationals `ℚ`.
  A value that IEEE arithmetic would make non-finite (NaN / ±∞, always arising
  here from a division by zero) is modelled as `none : Option ℚ` via `fdiv`.
* Transcendental primitives (`std::exp`, `std::log`, `std::sqrt`, the NDCG
  calculator terms `(2^rel − 1)/log2(rank+2)`) are parameters of the
  definitions (`expF`, `logF`, `sqrtF`, `termF`, `gcalc`); the theorems hold
  for every instantiation, in particular for the real functions.
* `absl::Status` / `StatusOr` results are `Except String`; `LOG(FATAL)`
  (process abort) is a dedicated constructor, distinct from returned errors.
* A `VerticalDataset` is passed as the lists of the columns the code reads;
  `std::vector` reads out of bounds are modelled with `List.getD` (the code
  never relies on them).
-/

namespace YDF

/-- `GradientBoostedTreesTrainingConfig` fields read by the loss layer. -/
structure GBTConfig where
  shrinkage : ℚ
  l1_regularization : ℚ
  l2_regularization : ℚ
  clamp_leaf_logit : ℚ
  use_hessian_gain : Bool
  lambda_loss : ℚ
  gradient_use_non_normalized_dcg : Bool
deriving DecidableEq

/-- Division as the code performs it on floats: a zero divisor produces a
non-finite value (NaN or ±∞), modelled as `none`. Note that a non-finite
float compares `false` with `==` against every finite constant, which is how
the branches downstream of `fdiv` are translated. -/
def fdiv (a b : ℚ) : Option ℚ := if b = 0 then none else some (a / b)

/-- Modelled from the spec: `decision_tree::l1_threshold`
(`learner/decision_tree/training.h`, not under `src/`):
`soft_threshold(x, τ) = sign(x)·max(|x|−τ, 0)`. -/
def l1_threshold (x t : ℚ) : ℚ :=
  if 0 < x then max (x - t) 0
  else if x < 0 then -max (-x - t) 0
  else 0

/-- Modelled from the spec: `utils::clamp` (`utils/compatibility.h`, not under
`src/`): clamp `v` to the interval `[lo, hi]`. -/
def clampQ (v lo hi : ℚ) : ℚ := if v < lo then lo else if hi < v then hi else v

/-- `kMinHessianForNewtonStep = 0.001f`. -/
def kMinHessianForNewtonStep : ℚ := 1 / 1000

/-! ## Binomial log-likelihood loss: initial predictions (C1) -/

/-- A component of the vector returned by
`BinomialLogLikelihoodLoss::InitialPredictions`:
`-f32::MAX`, `+f32::MAX`, or `log(r/(1−r))` for the computed positive ratio
`r` (`r = none` models the non-finite ratio produced when the weight sum is
zero; the logarithm of such a ratio is itself non-finite). -/
inductive BinInitVal where
  | negMaxFloat
  | posMaxFloat
  | logOdds (r : Option ℚ)
deriving DecidableEq

/-- `BinomialLogLikelihoodLoss::InitialPredictions`. An example is a pair
`(label, weight)` with categorical `label` (2 = positive). The loop
accumulates `sum_weights` and `weighted_sum_positive`; the function has no
error return. -/
def binomialInitialPredictions (examples : List (ℕ × ℚ)) :
    Except String (List BinInitVal) :=
  let acc := examples.foldl
    (fun (a : ℚ × ℚ) e => (a.1 + e.2, a.2 + (if e.1 = 2 then e.2 else 0)))
    (0, 0)
  match fdiv acc.2 acc.1 with
  | none => .ok [.logOdds none]
  | some ratio_positive =>
      if ratio_positive = 0 then .ok [.negMaxFloat]
      else if ratio_positive = 1 then .ok [.posMaxFloat]
      else .ok [.logOdds (some ratio_positive)]

/-! ## Binomial log-likelihood loss: leaf values (C2) -/

/-- What `BinomialLogLikelihoodLoss::SetLeaf` writes on the node: the
`top_value`, and (under `use_hessian_gain`) the
`(sum_gradients, sum_hessians, sum_weights)` triple. -/
structure LeafOutputs where
  top_value : ℚ
  sums : Option (ℚ × ℚ × ℚ)
deriving DecidableEq

/-- `BinomialLogLikelihoodLoss::SetLeaf`. `expF` abstracts `std::exp`;
`selected` is the leaf's `selected_examples`. -/
def binomialSetLeaf (cfg : GBTConfig) (expF : ℚ → ℚ) (labels : List ℕ)
    (weights predictions : List ℚ) (selected : List ℕ) : LeafOutputs :=
  let acc := selected.foldl
    (fun (a : ℚ × ℚ × ℚ) i =>
      let weight := weights.getD i 0
      let label : ℚ := if labels.getD i 0 = 2 then 1 else 0
      let p := 1 / (1 + expF (-(predictions.getD i 0)))
      (a.1 + weight * (label - p), a.2.1 + weight * p * (1 - p), a.2.2 + weight))
    (0, 0, 0)
  let numerator := acc.1
  let denominator :=
    if acc.2.1 ≤ kMinHessianForNewtonStep then kMinHessianForNewtonStep else acc.2.1
  let leaf_value := cfg.shrinkage *
    (l1_threshold numerator cfg.l1_regularization /
      (denominator + cfg.l2_regularization))
  { top_value := clampQ leaf_value (-cfg.clamp_leaf_logit) cfg.clamp_leaf_logit
    sums := if cfg.use_hessian_gain then some (numerator, denominator, acc.2.2)
            else none }

/-! ## Generic fold lemmas -/

/-- A loop that accumulates three running sums computes the three list sums. -/
theorem foldl_triple_sum {α : Type _} (f g h : α → ℚ) (l : List α)
    (a b c : ℚ) :
    l.foldl (fun (acc : ℚ × ℚ × ℚ) e => (acc.1 + f e, acc.2.1 + g e, acc.2.2 + h e))
        (a, b, c) =
      (a + (l.map f).sum, b + (l.map g).sum, c + (l.map h).sum) := by
  induction l generalizing a b c with
  | nil => simp
  | cons x xs ih => simp [ih, add_assoc]

/-- A loop that accumulates two running sums computes the two list sums. -/
theorem foldl_pair_sum {α : Type _} (f g : α → ℚ) (l : List α) (a b : ℚ) :
    l.foldl (fun (acc : ℚ × ℚ) e => (acc.1 + f e, acc.2 + g e)) (a, b) =
      (a + (l.map f).sum, b + (l.map g).sum) := by
  induction l generalizing a b with
  | nil => simp
  | cons x xs ih => simp [ih, add_assoc]

/-- In a fold whose third component only ever adds `h e` to itself, the third
component of the result is the initial value plus the sum of `h`. -/
theorem foldl_third_component {α σ : Type _} (h : α → ℚ)
    (step : (σ × σ × ℚ) → α → (σ × σ × ℚ)) (l : List α) (i : σ × σ × ℚ)
    (hstep : ∀ acc e, (step acc e).2.2 = acc.2.2 + h e) :
    (l.foldl step i).2.2 = i.2.2 + (l.map h).sum := by
  induction l generalizing i with
  | nil => simp
  | cons x xs ih => simp [ih, hstep, add_assoc]

/-! ## C1 theorems -/

/-- C1 (counterexample): on a dataset with a single example of weight `0`,
the sum of weights is `0 ≤ 0`, yet `BinomialLogLikelihoodLoss::InitialPredictions`
does not fail: it returns a (non-finite) value from the `log` branch.
(The claimed error for `sum_weights ≤ 0` exists in
`MeanSquaredErrorLoss::InitialPredictions` but not in the binomial loss.) -/
theorem binomial_initial_zero_weight_not_error :
    binomialInitialPredictions [(1, 0)] = .ok [.logOdds none] ∧
    ((0 : ℚ) ≤ 0) := by
  constructor
  · simp [binomialInitialPredictions, fdiv]
  · exact le_refl 0

/-- C1 (amended): `BinomialLogLikelihoodLoss::InitialPredictions` returns
`[log(p/(1−p))]` with `p` the weighted fraction of positive (`label == 2`)
examples; `[-f32::MAX]` if `p = 0`; `[+f32::MAX]` if `p = 1`. When the sum of
weights is zero it does not fail: the ratio is non-finite and the `log`
branch returns a non-finite value. -/
theorem binomial_initial_predictions_characterization
    (examples : List (ℕ × ℚ)) :
    (((examples.map (·.2)).sum = 0) →
        binomialInitialPredictions examples = .ok [.logOdds none]) ∧
    (∀ sw : ℚ, (examples.map (·.2)).sum = sw → sw ≠ 0 →
        binomialInitialPredictions examples =
          (if (examples.map (fun e => if e.1 = 2 then e.2 else 0)).sum / sw = 0 then
            .ok [.negMaxFloat]
          else if (examples.map (fun e => if e.1 = 2 then e.2 else 0)).sum / sw = 1 then
            .ok [.posMaxFloat]
          else
            .ok [.logOdds (some
              ((examples.map (fun e => if e.1 = 2 then e.2 else 0)).sum / sw))])) := by
  have hfold := foldl_pair_sum (fun e : ℕ × ℚ => e.2)
    (fun e : ℕ × ℚ => if e.1 = 2 then e.2 else 0) examples 0 0
  constructor
  · intro hz
    unfold binomialInitialPredictions
    rw [hfold]
    simp [fdiv, hz]
  · intro sw hsw hne
    unfold binomialInitialPredictions
    rw [hfold]
    simp only [zero_add, fdiv, hsw]
    rw [if_neg hne]

/-- C1 (witness): a dataset with one positive and one negative example of
weight 1 has positive ratio `1/2` and initial prediction `log((1/2)/(1/2))`. -/
theorem binomial_initial_predictions_characterization_witness :
    binomialInitialPredictions [(2, 1), (1, 1)] = .ok [.logOdds (some (1 / 2))] := by
  have h := (binomial_initial_predictions_characterization [(2, 1), (1, 1)]).2
    2 (by norm_num) (by norm_num)
  rw [h]
  norm_num

/-! ## C2 theorem -/

/-- C2: the leaf value written by `BinomialLogLikelihoodLoss::SetLeaf` is
`shrinkage · soft_threshold(N, L1) / (D + L2)` clamped to
`[−clamp_leaf_logit, +clamp_leaf_logit]`, with `N = Σ wᵢ(yᵢ − pᵢ)`,
`D = max(Σ wᵢ pᵢ (1 − pᵢ), 0.001)` over the selected examples and
`pᵢ = 1/(1 + exp(−predictionᵢ))`. -/
theorem binomial_set_leaf_value (cfg : GBTConfig) (expF : ℚ → ℚ)
    (labels : List ℕ) (weights predictions : List ℚ) (selected : List ℕ) :
    (binomialSetLeaf cfg expF labels weights predictions selected).top_value =
      clampQ
        (cfg.shrinkage *
          l1_threshold
            ((selected.map (fun i =>
              weights.getD i 0 *
                ((if labels.getD i 0 = 2 then (1 : ℚ) else 0) -
                  1 / (1 + expF (-(predictions.getD i 0)))))).sum)
            cfg.l1_regularization /
          (max ((selected.map (fun i =>
              weights.getD i 0 * (1 / (1 + expF (-(predictions.getD i 0)))) *
                (1 - 1 / (1 + expF (-(predictions.getD i 0)))))).sum)
              kMinHessianForNewtonStep +
            cfg.l2_regularization))
        (-cfg.clamp_leaf_logit) cfg.clamp_leaf_logit := by
  unfold binomialSetLeaf
  rw [foldl_triple_sum]
  simp only [zero_add]
  have hmax : ∀ d : ℚ,
      (if d ≤ kMinHessianForNewtonStep then kMinHessianForNewtonStep else d) =
        max d kMinHessianForNewtonStep := by
    intro d
    rcases le_or_lt d kMinHessianForNewtonStep with h | h
    · simp [h, max_eq_right h]
    · simp [not_le.mpr h, max_eq_left h.le]
  rw [hmax, mul_div_assoc]

/-! ## Ensemble inference (C3, C4)

A decision tree is embedded as the function taking a dataset row (or a proto
`Example`) to the `top_value` of the leaf reached (`tree.GetLeaf(...)`; the
tree-walking code lives in the external `decision_tree` library). -/

/-- `model::proto::Task` values relevant to the GBT model. -/
inductive TaskKind where
  | classification
  | regression
  | ranking
deriving DecidableEq

/-- `proto::Loss` (the five supported kinds). -/
inductive LossKind where
  | binomialLogLikelihood
  | squaredError
  | multinomialLogLikelihood
  | lambdaMartNdcg5
  | xeNdcgMart
deriving DecidableEq

/-- The task-specific content of a `model::proto::Prediction`, plus a
`fatalError` constructor modelling `LOG(FATAL)` (process abort). For
classification: predicted `value`, distribution `sum`, distribution
`counts` (index 0 is the out-of-vocabulary slot). -/
inductive PredOut where
  | classification (value : ℕ) (sum : ℚ) (counts : List ℚ)
  | regression (value : ℚ)
  | ranking (relevance : ℚ)
  | fatalError
deriving DecidableEq

/-- `CallOnAllLeafs` folded into an accumulator: walk the trees in order and
add each leaf's `top_value`. -/
def accumulateLeaves {α : Type _} (trees : List (α → ℚ)) (row : α)
    (init : ℚ) : ℚ :=
  trees.foldl (fun acc t => acc + t row) init

/-- The multinomial round-robin accumulation: tree `t` contributes to cell
`accumulator_cell_idx`, which cycles through `0, …, K−1`. -/
def multiAccumulate {α : Type _} (K : ℕ) (trees : List (α → ℚ)) (row : α) :
    List ℚ × ℕ :=
  trees.foldl
    (fun (s : List ℚ × ℕ) t =>
      let acc := s.1.set s.2 (s.1.getD s.2 0 + t row)
      let c := s.2 + 1
      (acc, if c = K then 0 else c))
    (List.replicate K 0, 0)

/-- The multinomial distribution emission of the dataset-row `Predict`
overload: `counts[k+1] = exp(acc[k])`, guard `sum_exp > 0` for the
normalization, arg-max over the unnormalized counts (strict `>`, starting
from value `0` and index `0`), then normalize in place. Returns
`(predicted value, counts)`. -/
def multinomialDistribution (expF : ℚ → ℚ) (acc : List ℚ) : ℕ × List ℚ :=
  let exps := acc.map expF
  let sum_exp := exps.sum
  let normalization := if 0 < sum_exp then 1 / sum_exp else 0
  let best := exps.enum.foldl
    (fun (b : ℚ × ℕ) iv => if b.1 < iv.2 then (iv.2, iv.1) else b) (0, 0)
  (best.2 + 1, 0 :: exps.map (fun e => e * normalization))

/-- Same, for the proto-`Example` `Predict` overload, whose normalization is
the unguarded `1.f / sum_exp`. -/
def multinomialDistributionExample (expF : ℚ → ℚ) (acc : List ℚ) :
    ℕ × List ℚ :=
  let exps := acc.map expF
  let sum_exp := exps.sum
  let normalization := 1 / sum_exp
  let best := exps.enum.foldl
    (fun (b : ℚ × ℕ) iv => if b.1 < iv.2 then (iv.2, iv.1) else b) (0, 0)
  (best.2 + 1, 0 :: exps.map (fun e => e * normalization))

/-- `GradientBoostedTreesModel::Predict` on a `VerticalDataset` row. -/
def predictRow {α : Type _} (loss : LossKind) (task : TaskKind)
    (expF : ℚ → ℚ) (initial_predictions : List ℚ) (num_trees_per_iter : ℕ)
    (trees : List (α → ℚ)) (row : α) : PredOut :=
  match loss with
  | .binomialLogLikelihood =>
      let accumulator := accumulateLeaves trees row (initial_predictions.getD 0 0)
      let proba_true := 1 / (1 + expF (-accumulator))
      .classification (if 1 / 2 < proba_true then 2 else 1) 1
        [0, 1 - proba_true, proba_true]
  | .multinomialLogLikelihood =>
      let acc := (multiAccumulate num_trees_per_iter trees row).1
      let d := multinomialDistribution expF acc
      .classification d.1 1 d.2
  | .squaredError =>
      let accumulator := accumulateLeaves trees row (initial_predictions.getD 0 0)
      if task = .ranking then .ranking accumulator
      else if task = .regression then .regression accumulator
      else .fatalError
  | .lambdaMartNdcg5 | .xeNdcgMart =>
      let accumulator := accumulateLeaves trees row (initial_predictions.getD 0 0)
      .ranking accumulator

/-- `GradientBoostedTreesModel::Predict` on a proto `Example`. The
`SQUARED_ERROR` branch always emits a regression value (it has no task
switch); the multinomial branch has `CHECK_EQ(accumulator_cell_idx, 0)`
(abort when the tree count is not a multiple of the dimension). -/
def predictExample {β : Type _} (loss : LossKind) (task : TaskKind)
    (expF : ℚ → ℚ) (initial_predictions : List ℚ) (num_trees_per_iter : ℕ)
    (trees : List (β → ℚ)) (ex : β) : PredOut :=
  match loss with
  | .binomialLogLikelihood =>
      let accumulator := accumulateLeaves trees ex (initial_predictions.getD 0 0)
      let proba_true := 1 / (1 + expF (-accumulator))
      .classification (if 1 / 2 < proba_true then 2 else 1) 1
        [0, 1 - proba_true, proba_true]
  | .multinomialLogLikelihood =>
      let s := multiAccumulate num_trees_per_iter trees ex
      if s.2 ≠ 0 then .fatalError
      else
        let d := multinomialDistributionExample expF s.1
        .classification d.1 1 d.2
  | .squaredError =>
      let accumulator := accumulateLeaves trees ex (initial_predictions.getD 0 0)
      .regression accumulator
  | .lambdaMartNdcg5 | .xeNdcgMart =>
      let accumulator := accumulateLeaves trees ex (initial_predictions.getD 0 0)
      .ranking accumulator

/-! ## C3 theorem -/

/-- C3: if the multinomial inference accumulator is `[c, …, c]` (all `K`
per-class logits equal) then the emitted distribution assigns probability
`1/K` to every class `1..K` (and `0` to the out-of-vocabulary class `0`),
for any `c` and any `exp` with `exp c > 0` (true of the real exponential
at every finite argument). -/
theorem multinomial_uniform_accumulator_distribution (expF : ℚ → ℚ) (K : ℕ)
    (c : ℚ) (hK : 0 < K) (hexp : 0 < expF c) :
    (multinomialDistribution expF (List.replicate K c)).2 =
      0 :: List.replicate K (1 / (K : ℚ)) := by
  unfold multinomialDistribution
  have hKQ : (0 : ℚ) < (K : ℚ) := by exact_mod_cast hK
  have hsum : (0 : ℚ) < (K : ℚ) * expF c := mul_pos hKQ hexp
  have hval : expF c * (1 / ((K : ℚ) * expF c)) = 1 / (K : ℚ) := by
    have h1 : expF c ≠ 0 := ne_of_gt hexp
    have h2 : (K : ℚ) ≠ 0 := ne_of_gt hKQ
    field_simp
    ring
  simp only [List.map_replicate, List.sum_replicate, nsmul_eq_mul, hsum,
    if_true, hval]

/-- C3 (witness): `K = 2`, `c = 3`, `expF = fun _ => 1`. -/
theorem multinomial_uniform_accumulator_distribution_witness :
    (multinomialDistribution (fun _ => 1) (List.replicate 2 3)).2 =
      0 :: List.replicate 2 (1 / (2 : ℚ)) :=
  multinomial_uniform_accumulator_distribution (fun _ => 1) 2 3 (by norm_num)
    (by norm_num)

/-! ## C4 theorems -/

/-- C4 (counterexample): for a ranking-task model with loss `SQUARED_ERROR`
(initial prediction `5`, no trees), the dataset-row entry point emits
`ranking.relevance` but the proto-`Example` entry point emits
`regression.value` — the two entry points do not agree, contradicting the
claim that both emit `ranking.relevance` for a `RANKING` task. -/
theorem squared_error_example_predict_not_ranking :
    predictRow .squaredError .ranking (fun x => x) [5] 1
        ([] : List (Unit → ℚ)) () = .ranking 5 ∧
    predictExample .squaredError .ranking (fun x => x) [5] 1
        ([] : List (Unit → ℚ)) () = .regression 5 ∧
    (PredOut.regression 5 ≠ PredOut.ranking 5) := by
  refine ⟨rfl, rfl, ?_⟩
  decide

/-- C4 (amended): for loss `SquaredError` the accumulated value is
`initial_predictions[0]` plus the sum of the leaf `top_value`s; the
dataset-row entry point emits it as `ranking.relevance` for a `RANKING` task
and as `regression.value` for a `REGRESSION` task, while the proto-`Example`
entry point always emits it as `regression.value`, regardless of task. -/
theorem squared_error_predict_characterization {α : Type _} (task : TaskKind)
    (expF : ℚ → ℚ) (initial_predictions : List ℚ) (K : ℕ)
    (trees : List (α → ℚ)) (row : α) :
    predictRow .squaredError task expF initial_predictions K trees row =
      (if task = .ranking then
        .ranking (initial_predictions.getD 0 0 + (trees.map (fun t => t row)).sum)
      else if task = .regression then
        .regression (initial_predictions.getD 0 0 + (trees.map (fun t => t row)).sum)
      else .fatalError) ∧
    predictExample .squaredError task expF initial_predictions K trees row =
      .regression (initial_predictions.getD 0 0 + (trees.map (fun t => t row)).sum) := by
  have hacc : ∀ (i : ℚ), accumulateLeaves trees row i = i + (trees.map (fun t => t row)).sum := by
    intro i
    unfold accumulateLeaves
    induction trees generalizing i with
    | nil => simp
    | cons t ts ih => simp [ih, add_assoc]
  constructor
  · show (if task = .ranking then PredOut.ranking (accumulateLeaves trees row _)
      else if task = .regression then PredOut.regression (accumulateLeaves trees row _)
      else PredOut.fatalError) = _
    rw [hacc]
  · show PredOut.regression (accumulateLeaves trees row _) = _
    rw [hacc]

/-! ## Ranking group index (C5, C6) -/

/-- `RankingGroupsIndices::Item`. -/
structure RItem where
  relevance : ℚ
  example_idx : ℕ
deriving DecidableEq

instance : Inhabited RItem := ⟨⟨0, 0⟩⟩

/-- `RankingGroupsIndices::Group`. -/
structure RGroup where
  group_idx : ℕ
  items : List RItem
deriving DecidableEq

/-- `RankingGroupsIndices` (`groups_`, `num_items_`). -/
structure RankingIndex where
  groups : List RGroup
  num_items : ℕ
deriving DecidableEq

/-- The observable outcome of `RankingGroupsIndices::Initialize` (a `void`
function): either the constructed index, or `fatalAbort` modelling
`LOG(FATAL)` — the process terminates, no value (and no error status) is
returned. -/
inductive InitOutcome where
  | ok (index : RankingIndex)
  | fatalAbort
deriving DecidableEq

/-- `kMaximumItemsInRankingGroup = 2000`. -/
def kMaximumItemsInRankingGroup : ℕ := 2000

/-- The item comparator of `Initialize` read as a "less or equal" order:
`a` precedes `b` when `a` has larger relevance, or equal relevance and
larger `example_idx` (descending relevance, ties broken by descending
example index). -/
def itemRel (a b : RItem) : Prop :=
  b.relevance < a.relevance ∨
    (a.relevance = b.relevance ∧ b.example_idx ≤ a.example_idx)

instance : DecidableRel itemRel := fun a b => by
  unfold itemRel; infer_instance

instance : IsTotal RItem itemRel where
  total a b := by
    unfold itemRel
    rcases lt_trichotomy a.relevance b.relevance with h | h | h
    · exact Or.inr (Or.inl h)
    · rcases le_total b.example_idx a.example_idx with h2 | h2
      · exact Or.inl (Or.inr ⟨h, h2⟩)
      · exact Or.inr (Or.inr ⟨h.symm, h2⟩)
    · exact Or.inl (Or.inl h)

instance : IsTrans RItem itemRel where
  trans a b c hab hbc := by
    unfold itemRel at *
    rcases hab with h1 | ⟨h1, h1'⟩ <;> rcases hbc with h2 | ⟨h2, h2'⟩
    · exact Or.inl (h2.trans h1)
    · exact Or.inl (h2 ▸ h1)
    · exact Or.inl (h1 ▸ h2)
    · exact Or.inr ⟨h1.trans h2, h2'.trans h1'⟩

/-- `front().example_idx` of a group (groups built by `Initialize` are
never empty). -/
def groupFirstExample (g : RGroup) : ℕ :=
  (g.items.head?.elim 0 (fun it => it.example_idx))

/-- The group comparator of `Initialize` read as a "less or equal" order:
ascending first-item `example_idx`, ties broken by ascending `group_idx`. -/
def groupRel (a b : RGroup) : Prop :=
  groupFirstExample a < groupFirstExample b ∨
    (groupFirstExample a = groupFirstExample b ∧ a.group_idx ≤ b.group_idx)

instance : DecidableRel groupRel := fun a b => by
  unfold groupRel; infer_instance

instance : IsTotal RGroup groupRel where
  total a b := by
    unfold groupRel
    rcases lt_trichotomy (groupFirstExample a) (groupFirstExample b) with h | h | h
    · exact Or.inl (Or.inl h)
    · rcases le_total a.group_idx b.group_idx with h2 | h2
      · exact Or.inl (Or.inr ⟨h, h2⟩)
      · exact Or.inr (Or.inr ⟨h.symm, h2⟩)
    · exact Or.inr (Or.inl h)

instance : IsTrans RGroup groupRel where
  trans a b c hab hbc := by
    unfold groupRel at *
    rcases hab with h1 | ⟨h1, h1'⟩ <;> rcases hbc with h2 | ⟨h2, h2'⟩
    · exact Or.inl (h1.trans h2)
    · exact Or.inl (h2 ▸ h1)
    · exact Or.inl (h1 ▸ h2)
    · exact Or.inr ⟨h1.trans h2, h1'.trans h2'⟩

/-- One step of filling `tmp_groups[group_value].push_back(item)`. The
association list plays the role of `absl::flat_hash_map`; a new key is
appended, an existing bucket receives the item. (Items are consed; the order
inside a bucket is irrelevant because every bucket is sorted by a comparator
that is a strict total order on its items — all `example_idx` are distinct.) -/
def bucketAdd (m : List (ℕ × List RItem)) (gid : ℕ) (item : RItem) :
    List (ℕ × List RItem) :=
  match m with
  | [] => [(gid, [item])]
  | b :: rest =>
      if b.1 = gid then (b.1, item :: b.2) :: rest
      else b :: bucketAdd rest gid item

/-- The `tmp_groups` map after the fill loop of
`RankingGroupsIndices::Initialize`; a dataset row is its
`(relevance, group value)` pair and `example_idx` is the row number. -/
def buildGroupsMap (rows : List (ℚ × ℕ)) : List (ℕ × List RItem) :=
  rows.enum.foldl (fun m r => bucketAdd m r.2.2 ⟨r.2.1, r.1⟩) []

/-- `RankingGroupsIndices::Initialize`. `std::sort` is modelled by insertion
sort, which produces the same list because both comparators are strict total
orders on the sorted data (no two items of a bucket share relevance and
example index; no two groups share first example index and group id). The
source sorts each bucket before the `kMaximumItemsInRankingGroup` size
check; sorting preserves the size and a `LOG(FATAL)` abort discards all
state, so the abort condition is checked here on the unsorted buckets. -/
def rankingInitialize (rows : List (ℚ × ℕ)) : InitOutcome :=
  let m := buildGroupsMap rows
  if m.any (fun b => kMaximumItemsInRankingGroup < b.2.length) then .fatalAbort
  else
    .ok { groups := List.insertionSort groupRel
            (m.map (fun b =>
              { group_idx := b.1, items := List.insertionSort itemRel b.2 }))
          num_items := rows.length }

/-- Total number of items stored in a bucket map. -/
def bucketSizes (m : List (ℕ × List RItem)) : ℕ :=
  (m.map (fun b => b.2.length)).sum

theorem bucketAdd_sizes (m : List (ℕ × List RItem)) (gid : ℕ) (item : RItem) :
    bucketSizes (bucketAdd m gid item) = bucketSizes m + 1 := by
  induction m with
  | nil => simp [bucketAdd, bucketSizes]
  | cons b rest ih =>
      by_cases h : b.1 = gid
      · simp [bucketAdd, h, bucketSizes]
        omega
      · simp only [bucketAdd, if_neg h, bucketSizes, List.map_cons, List.sum_cons]
        have := ih
        simp only [bucketSizes] at this
        omega

theorem buildGroupsMap_sizes (rows : List (ℚ × ℕ)) :
    bucketSizes (buildGroupsMap rows) = rows.length := by
  suffices h : ∀ (l : List (ℕ × (ℚ × ℕ))) (m : List (ℕ × List RItem)),
      bucketSizes (l.foldl (fun m r => bucketAdd m r.2.2 ⟨r.2.1, r.1⟩) m) =
        bucketSizes m + l.length by
    have := h rows.enum []
    simpa [buildGroupsMap, bucketSizes] using this
  intro l
  induction l with
  | nil => simp
  | cons x xs ih =>
      intro m
      simp only [List.foldl_cons, ih, bucketAdd_sizes, List.length_cons]
      omega

/-! ## C5 theorem -/

/-- C5: after a successful `RankingGroupsIndices::Initialize`, every group's
items are sorted by descending relevance with ties broken by descending
`example_idx` (`itemRel`), the groups are sorted by ascending first-item
`example_idx` with ties broken by ascending group id (`groupRel`), and the
total number of items over all groups equals `num_items` equals the number
of dataset rows. -/
theorem ranking_initialize_invariants (rows : List (ℚ × ℕ))
    (idx : RankingIndex) (h : rankingInitialize rows = .ok idx) :
    (∀ g ∈ idx.groups, g.items.Pairwise itemRel) ∧
    idx.groups.Pairwise groupRel ∧
    (idx.groups.map (fun g => g.items.length)).sum = idx.num_items ∧
    idx.num_items = rows.length := by
  unfold rankingInitialize at h
  by_cases hc : (buildGroupsMap rows).any
      (fun b => kMaximumItemsInRankingGroup < b.2.length)
  · simp [hc] at h
  · simp only [hc, Bool.false_eq_true, if_false] at h
    cases h'' : idx
    rename_i gs ni
    rw [h''] at h
    injection h with h
    injection h with hgs hni
    subst hgs
    subst hni
    refine ⟨?_, ?_, ?_, ?_⟩
    · intro g hg
      rw [List.mem_insertionSort] at hg
      rcases List.mem_map.mp hg with ⟨b, _, rfl⟩
      exact List.sorted_insertionSort itemRel b.2
    · exact List.sorted_insertionSort groupRel _
    · have hperm := List.perm_insertionSort groupRel
        ((buildGroupsMap rows).map (fun b =>
          ({ group_idx := b.1, items := List.insertionSort itemRel b.2 } : RGroup)))
      have hsum := (hperm.map (fun g : RGroup => g.items.length)).sum_eq
      rw [hsum, List.map_map]
      have : ((buildGroupsMap rows).map
          ((fun g : RGroup => g.items.length) ∘ (fun b =>
            ({ group_idx := b.1, items := List.insertionSort itemRel b.2 } : RGroup)))) =
          ((buildGroupsMap rows).map (fun b => b.2.length)) := by
        apply List.map_congr_left
        intro b _
        simp [List.length_insertionSort]
      rw [this]
      have := buildGroupsMap_sizes rows
      simpa [bucketSizes] using this
    · rfl

/-- C5 (witness): a 4-row, 2-group dataset; the resulting index is computed
explicitly and the theorem applies to it. -/
theorem ranking_initialize_invariants_witness :
    rankingInitialize [(5, 10), (3, 20), (7, 10), (7, 20)] =
      .ok { groups := [{ group_idx := 10, items := [⟨7, 2⟩, ⟨5, 0⟩] },
                       { group_idx := 20, items := [⟨7, 3⟩, ⟨3, 1⟩] }]
            num_items := 4 } ∧
    ((4 : ℕ) = [(((5 : ℚ), (10 : ℕ))), ((3 : ℚ), (20 : ℕ)), ((7 : ℚ), (10 : ℕ)),
      ((7 : ℚ), (20 : ℕ))].length) := by
  constructor
  · decide
  · exact (ranking_initialize_invariants [(5, 10), (3, 20), (7, 10), (7, 20)]
      { groups := [{ group_idx := 10, items := [⟨7, 2⟩, ⟨5, 0⟩] },
                   { group_idx := 20, items := [⟨7, 3⟩, ⟨3, 1⟩] }]
        num_items := 4 } (by decide)).2.2.2.symm ▸ rfl

/-! ## C6 theorems -/

/-- 2001 rows all in the same ranking group. -/
def bigGroupRows : List (ℚ × ℕ) := List.replicate 2001 (0, 7)

/-- When every remaining row belongs to group `g`, folding the fill loop
over them only grows the single bucket of `g`. -/
theorem foldl_bucketAdd_single_group (l : List (ℕ × (ℚ × ℕ))) (g : ℕ) :
    ∀ (its : List RItem), (∀ x ∈ l, x.2.2 = g) →
    ∃ its2, l.foldl (fun m r => bucketAdd m r.2.2 ⟨r.2.1, r.1⟩) [(g, its)] =
        [(g, its2)] ∧ its2.length = its.length + l.length := by
  induction l with
  | nil => intro its _; exact ⟨its, by simp⟩
  | cons x xs ih =>
      intro its hall
      have hx : x.2.2 = g := hall x (List.mem_cons_self x xs)
      have hstep : bucketAdd [(g, its)] x.2.2 ⟨x.2.1, x.1⟩ =
          [(g, (⟨x.2.1, x.1⟩ : RItem) :: its)] := by
        simp [bucketAdd, hx]
      rcases ih ((⟨x.2.1, x.1⟩ : RItem) :: its)
          (fun y hy => hall y (List.mem_cons_of_mem x hy)) with ⟨its2, h1, h2⟩
      refine ⟨its2, ?_, ?_⟩
      · simpa [hstep] using h1
      · simp only [List.length_cons] at h2
        simp [h2, List.length_cons]
        omega

/-- A dataset whose rows all carry the same group value fills a single
bucket whose size is the number of rows. -/
theorem buildGroupsMap_single_group (r : ℚ) (g : ℕ) (n : ℕ) (hn : 0 < n) :
    ∃ its, buildGroupsMap (List.replicate n (r, g)) = [(g, its)] ∧
      its.length = n := by
  obtain ⟨m, rfl⟩ : ∃ m, n = m + 1 := ⟨n - 1, by omega⟩
  unfold buildGroupsMap
  rw [List.replicate_succ, List.enum_cons]
  have hfirst : bucketAdd [] ((0 : ℕ), ((r : ℚ), g)).2.2
      ⟨((0 : ℕ), ((r : ℚ), g)).2.1, ((0 : ℕ), ((r : ℚ), g)).1⟩ = [(g, [⟨r, 0⟩])] := by
    simp [bucketAdd]
  have hall : ∀ x ∈ (List.replicate m ((r : ℚ), g)).enumFrom 1, x.2.2 = g := by
    rw [List.forall_mem_enumFrom]
    intro i hi
    simp
  rcases foldl_bucketAdd_single_group ((List.replicate m ((r : ℚ), g)).enumFrom 1)
      g [⟨r, 0⟩] hall with ⟨its2, h1, h2⟩
  refine ⟨its2, ?_, ?_⟩
  · simpa [hfirst] using h1
  · simp only [List.length_singleton, List.enumFrom_length,
      List.length_replicate] at h2
    simp [h2, List.length_replicate]
    omega

/-- C6 (counterexample): on a dataset whose single ranking group holds 2001
items (more than `kMaximumItemsInRankingGroup = 2000`),
`RankingGroupsIndices::Initialize` hits `LOG(FATAL)` and the process
terminates (`fatalAbort`); no typed (recoverable) error result is produced —
`Initialize` returns `void` and has no error channel at all. -/
theorem ranking_initialize_oversized_group_fatal :
    ((buildGroupsMap bigGroupRows).any
      (fun b => kMaximumItemsInRankingGroup < b.2.length) = true) ∧
    rankingInitialize bigGroupRows = .fatalAbort := by
  rcases buildGroupsMap_single_group 0 7 2001 (by norm_num) with ⟨its, h1, h2⟩
  have hany : (buildGroupsMap bigGroupRows).any
      (fun b => kMaximumItemsInRankingGroup < b.2.length) = true := by
    rw [show bigGroupRows = List.replicate 2001 ((0 : ℚ), (7 : ℕ)) from rfl, h1]
    simp [kMaximumItemsInRankingGroup, h2]
  refine ⟨hany, ?_⟩
  unfold rankingInitialize
  simp [hany]

/-- C6 (amended): whenever some ranking group holds more than
`kMaximumItemsInRankingGroup = 2000` items, `Initialize` terminates the
process via `LOG(FATAL)` instead of returning (there is no recoverable,
typed error result). -/
theorem ranking_initialize_oversized_group_always_fatal
    (rows : List (ℚ × ℕ))
    (h : (buildGroupsMap rows).any
      (fun b => kMaximumItemsInRankingGroup < b.2.length) = true) :
    rankingInitialize rows = .fatalAbort := by
  unfold rankingInitialize
  simp [h]

/-- C6 (witness): the amended theorem applied to the concrete 2001-item
group. -/
theorem ranking_initialize_oversized_group_always_fatal_witness :
    rankingInitialize bigGroupRows = .fatalAbort :=
  ranking_initialize_oversized_group_always_fatal bigGroupRows (by
    rcases buildGroupsMap_single_group 0 7 2001 (by norm_num) with ⟨its, h1, h2⟩
    rw [show bigGroupRows = List.replicate 2001 ((0 : ℚ), (7 : ℕ)) from rfl, h1]
    simp [kMaximumItemsInRankingGroup, h2])

/-! ## Loss evaluation (`Loss` methods; C7, C10)

Each `Loss` method receives the caller's `secondary_metric` vector (here
`inMetrics`) and returns the pair `(loss value, final secondary_metric)`.
Metric cells are `Option ℚ` (`none` = NaN). -/

/-- `std::vector<float>::resize(n)`: keep the first `min(n, size)` elements,
pad with value-initialized (`0`) cells. -/
def listResize (l : List (Option ℚ)) (n : ℕ) : List (Option ℚ) :=
  l.take n ++ List.replicate (n - l.length) (some 0)

/-- `BinomialLogLikelihoodLoss::Loss`. The loop accumulates
`(sum_loss, count_correct_predictions, sum_weights)`; the metric vector is
resized to 1; on a non-positive weight sum both outputs are NaN. -/
def binomialLossFn (expF logF : ℚ → ℚ) (labels : List ℕ)
    (predictions weights : List ℚ) (inMetrics : List (Option ℚ)) :
    Except String (Option ℚ × List (Option ℚ)) :=
  let st := labels.enum.foldl
    (fun (a : ℚ × ℚ × ℚ) ie =>
      let pos_label : Bool := ie.2 == 2
      let label : ℚ := if pos_label then 1 else 0
      let prediction := predictions.getD ie.1 0
      let weight := weights.getD ie.1 0
      let pos_prediction : Bool := decide (0 ≤ prediction)
      (a.1 - 2 * weight * (label * prediction - logF (1 + expF prediction)),
       a.2.1 + (if pos_label = pos_prediction then weight else 0),
       a.2.2 + weight))
    (0, 0, 0)
  let metrics := listResize inMetrics 1
  if 0 < st.2.2 then
    .ok (some (st.1 / st.2.2), metrics.set 0 (some (st.2.1 / st.2.2)))
  else
    .ok (none, metrics.set 0 none)

/-- `MultinomialLogLikelihoodLoss::Loss`. The inner loop over the
`dimension` classes tracks `(predicted_class, predicted_class_exp_value,
sum_exp)`, starting from class `-1` and value `0` with strict `>`. -/
def multinomialLossFn (expF logF : ℚ → ℚ) (dimension : ℕ) (labels : List ℕ)
    (predictions weights : List ℚ) (inMetrics : List (Option ℚ)) :
    Except String (Option ℚ × List (Option ℚ)) :=
  let st := labels.enum.foldl
    (fun (a : ℚ × ℚ × ℚ) ie =>
      let label := ie.2
      let weight := weights.getD ie.1 0
      let inner := (List.range dimension).foldl
        (fun (b : ℤ × ℚ × ℚ) grad_idx =>
          let exp_val := expF (predictions.getD (grad_idx + ie.1 * dimension) 0)
          if b.2.1 < exp_val then ((grad_idx : ℤ) + 1, exp_val, b.2.2 + exp_val)
          else (b.1, b.2.1, b.2.2 + exp_val))
        (-1, 0, 0)
      let tree_label_exp_value :=
        expF (predictions.getD ((label - 1) + ie.1 * dimension) 0)
      (a.1 - weight * logF (tree_label_exp_value / inner.2.2),
       a.2.1 + (if (label : ℤ) = inner.1 then weight else 0),
       a.2.2 + weight))
    (0, 0, 0)
  let metrics := listResize inMetrics 1
  if 0 < st.2.2 then
    .ok (some (st.1 / st.2.2), metrics.set 0 (some (st.2.1 / st.2.2)))
  else
    .ok (none, metrics.set 0 none)

/-- Modelled from the spec: `metric::RMSE` (`metric/metric.h`, not under
`src/`): weighted root-mean-square error `sqrt(Σ wᵢ(yᵢ−fᵢ)² / Σ wᵢ)`; a zero
weight sum makes the division, hence the result, non-finite (NaN). `sqrtF`
abstracts the square root on finite values. -/
def rmseSpec (sqrtF : ℚ → ℚ) (labels predictions weights : List ℚ) :
    Option ℚ :=
  (fdiv (labels.enum.map (fun ie =>
        weights.getD ie.1 0 * (ie.2 - predictions.getD ie.1 0) ^ 2)).sum
      (labels.enum.map (fun ie => weights.getD ie.1 0)).sum).map sqrtF

/-- `RankingGroupsIndices::NDCG`. `gcalc` abstracts
`metric::NDCGCalculator::NDCG` on the group's (prediction, relevance) pairs
(`metric/ranking_ndcg.h`, not under `src/`). Each group is weighted by the
weight of its first item's example; the final division is non-finite (NaN)
when the weight sum is zero. -/
def indexNdcg (gcalc : List RItem → List ℚ → ℚ) (index : RankingIndex)
    (predictions weights : List ℚ) : Option ℚ :=
  let st := index.groups.foldl
    (fun (a : ℚ × ℚ) g =>
      let weight := weights.getD (groupFirstExample g) 0
      (a.1 + weight * gcalc g.items predictions, a.2 + weight))
    (0, 0)
  fdiv st.1 st.2

/-- `MeanSquaredErrorLoss::Loss`: the loss is the RMSE; ranking tasks also
report `NDCG@5` as a second metric. -/
def mseLossFn (task : TaskKind) (sqrtF : ℚ → ℚ)
    (gcalc : List RItem → List ℚ → ℚ) (labels predictions weights : List ℚ)
    (index : RankingIndex) (inMetrics : List (Option ℚ)) :
    Except String (Option ℚ × List (Option ℚ)) :=
  let rmse := rmseSpec sqrtF labels predictions weights
  if task = .ranking then
    .ok (rmse, ((listResize inMetrics 2).set 0 rmse).set 1
      (indexNdcg gcalc index predictions weights))
  else
    .ok (rmse, (listResize inMetrics 1).set 0 rmse)

/-- `NDCGLoss::Loss`: `-NDCG@5` with `NDCG@5` as the only secondary metric;
a missing ranking index is an internal error. -/
def ndcgLossFn (gcalc : List RItem → List ℚ → ℚ)
    (predictions weights : List ℚ) (ranking_index : Option RankingIndex)
    (inMetrics : List (Option ℚ)) :
    Except String (Option ℚ × List (Option ℚ)) :=
  match ranking_index with
  | none => .error "Missing ranking index"
  | some index =>
      let ndcg := indexNdcg gcalc index predictions weights
      .ok (ndcg.map (fun x => -x), (listResize inMetrics 1).set 0 ndcg)

/-- `CrossEntropyNDCGLoss::Loss`: only the loss value (`-NDCG@5`) is
written; the secondary-metric vector is not touched. -/
def xeNdcgLossFn (gcalc : List RItem → List ℚ → ℚ)
    (predictions weights : List ℚ) (ranking_index : Option RankingIndex)
    (inMetrics : List (Option ℚ)) :
    Except String (Option ℚ × List (Option ℚ)) :=
  match ranking_index with
  | none => .error "Missing ranking index"
  | some index =>
      .ok ((indexNdcg gcalc index predictions weights).map (fun x => -x),
        inMetrics)

/-! ## Helper lemmas for the loss theorems -/

theorem getD_zero_of_all_zero (l : List ℚ) (h : ∀ w ∈ l, w = 0) (i : ℕ) :
    l.getD i 0 = 0 := by
  induction l generalizing i with
  | nil => simp
  | cons x xs ih =>
      cases i with
      | zero => simpa using h x (List.mem_cons_self x xs)
      | succ n =>
          simpa using ih (fun w hw => h w (List.mem_cons_of_mem x hw)) n

theorem listResize_one_set (l : List (Option ℚ)) (v : Option ℚ) :
    (listResize l 1).set 0 v = [v] := by
  cases l <;> simp [listResize]

theorem listResize_two_set (l : List (Option ℚ)) (a b : Option ℚ) :
    ((listResize l 2).set 0 a).set 1 b = [a, b] := by
  match l with
  | [] => simp [listResize]
  | [x] => simp [listResize]
  | x :: y :: rest => simp [listResize]

theorem listResize_length (l : List (Option ℚ)) (n : ℕ) :
    (listResize l n).length = n := by
  simp [listResize]
  omega

/-! ## C7 theorem -/

/-- C7: on a dataset whose total weight is zero (all weights zero — in
particular an empty dataset), every loss's `Loss` method succeeds and
reports NaN (`none`) as the loss value and NaN as each secondary metric.
(The XE-NDCG loss declares no secondary metrics; it reports the NaN loss and
leaves the caller's vector untouched.) -/
theorem zero_weight_loss_is_nan (expF logF sqrtF : ℚ → ℚ)
    (gcalc : List RItem → List ℚ → ℚ) (dimension : ℕ) (labels : List ℕ)
    (nlabels predictions weights : List ℚ) (index : RankingIndex)
    (inMetrics : List (Option ℚ)) (hw : ∀ w ∈ weights, w = 0) :
    binomialLossFn expF logF labels predictions weights inMetrics =
      .ok (none, [none]) ∧
    multinomialLossFn expF logF dimension labels predictions weights
      inMetrics = .ok (none, [none]) ∧
    mseLossFn .regression sqrtF gcalc nlabels predictions weights index
      inMetrics = .ok (none, [none]) ∧
    mseLossFn .ranking sqrtF gcalc nlabels predictions weights index
      inMetrics = .ok (none, [none, none]) ∧
    ndcgLossFn gcalc predictions weights (some index) inMetrics =
      .ok (none, [none]) ∧
    xeNdcgLossFn gcalc predictions weights (some index) inMetrics =
      .ok (none, inMetrics) := by
  have hgetD : ∀ i : ℕ, weights.getD i 0 = 0 := getD_zero_of_all_zero weights hw
  have hsumE : ∀ l : List (ℕ × ℕ),
      (l.map (fun ie => weights.getD ie.1 0)).sum = 0 := by
    intro l
    apply List.sum_eq_zero
    intro x hx
    rcases List.mem_map.mp hx with ⟨ie, _, rfl⟩
    exact hgetD ie.1
  have hsumQ : ∀ l : List (ℕ × ℚ),
      (l.map (fun ie => weights.getD ie.1 0)).sum = 0 := by
    intro l
    apply List.sum_eq_zero
    intro x hx
    rcases List.mem_map.mp hx with ⟨ie, _, rfl⟩
    exact hgetD ie.1
  have hsumG : (index.groups.map
      (fun g => weights.getD (groupFirstExample g) 0)).sum = 0 := by
    apply List.sum_eq_zero
    intro x hx
    rcases List.mem_map.mp hx with ⟨g, _, rfl⟩
    exact hgetD _
  have hndcg : indexNdcg gcalc index predictions weights = none := by
    unfold indexNdcg
    rw [foldl_pair_sum, hsumG]
    simp [fdiv]
  have hrmse : rmseSpec sqrtF nlabels predictions weights = none := by
    unfold rmseSpec
    rw [hsumQ]
    simp [fdiv]
  refine ⟨?_, ?_, ?_, ?_, ?_, ?_⟩
  · simp only [binomialLossFn]
    rw [foldl_third_component (fun ie : ℕ × ℕ => weights.getD ie.1 0) _ _ _
      (fun acc e => rfl)]
    rw [hsumE]
    simp [listResize_one_set]
  · simp only [multinomialLossFn]
    rw [foldl_third_component (fun ie : ℕ × ℕ => weights.getD ie.1 0) _ _ _
      (fun acc e => rfl)]
    rw [hsumE]
    simp [listResize_one_set]
  · simp only [mseLossFn, hrmse]
    simp [listResize_one_set]
  · simp only [mseLossFn, hrmse, hndcg]
    simp [listResize_two_set]
  · simp only [ndcgLossFn, hndcg]
    simp [listResize_one_set]
  · simp only [xeNdcgLossFn, hndcg]
    rfl

/-- C7 (witness): a one-example dataset with weight `0`. -/
theorem zero_weight_loss_is_nan_witness :
    binomialLossFn (fun x => x) (fun x => x) [1] [0] [0] [some 5] =
      .ok (none, [none]) :=
  (zero_weight_loss_is_nan (fun x => x) (fun x => x) (fun x => x)
    (fun _ _ => 0) 3 [1] [0] [0] [0] ⟨[], 0⟩ [some 5]
    (by intro w hw; simpa using hw)).1

/-! ## C10 theorems -/

/-- C10: `CrossEntropyNDCGLoss::Loss` writes only the loss value (the
negated `NDCG@5`) and returns the caller's secondary-metric vector exactly
as passed, whereas every other loss overwrites it with a vector of a fixed
length determined only by the loss (1; or 2 for ranking-task squared
error), whatever the caller passed in. -/
theorem xe_ndcg_loss_preserves_metrics (expF logF sqrtF : ℚ → ℚ)
    (gcalc : List RItem → List ℚ → ℚ) (dimension : ℕ) (labels : List ℕ)
    (nlabels predictions weights : List ℚ) (index : RankingIndex)
    (inMetrics : List (Option ℚ)) :
    xeNdcgLossFn gcalc predictions weights (some index) inMetrics =
      .ok ((indexNdcg gcalc index predictions weights).map (fun x => -x),
        inMetrics) ∧
    (∀ r, binomialLossFn expF logF labels predictions weights inMetrics =
      .ok r → r.2.length = 1) ∧
    (∀ r, multinomialLossFn expF logF dimension labels predictions weights
      inMetrics = .ok r → r.2.length = 1) ∧
    (∀ r, mseLossFn .regression sqrtF gcalc nlabels predictions weights index
      inMetrics = .ok r → r.2.length = 1) ∧
    (∀ r, mseLossFn .ranking sqrtF gcalc nlabels predictions weights index
      inMetrics = .ok r → r.2.length = 2) ∧
    (∀ r, ndcgLossFn gcalc predictions weights (some index) inMetrics =
      .ok r → r.2.length = 1) := by
  refine ⟨rfl, ?_, ?_, ?_, ?_, ?_⟩
  · intro r h
    simp only [binomialLossFn] at h
    split_ifs at h <;>
      · injection h with h
        rw [← h]
        simp [List.length_set, listResize_length]
  · intro r h
    simp only [multinomialLossFn] at h
    split_ifs at h <;>
      · injection h with h
        rw [← h]
        simp [List.length_set, listResize_length]
  · intro r h
    simp only [mseLossFn, reduceCtorEq, reduceIte] at h
    · injection h with h
      rw [← h]
      simp [List.length_set, listResize_length]
  · intro r h
    simp only [mseLossFn, reduceIte] at h
    · injection h with h
      rw [← h]
      simp [List.length_set, listResize_length]
  · intro r h
    simp only [ndcgLossFn] at h
    injection h with h
    rw [← h]
    simp [List.length_set, listResize_length]

/-- C10 (witness): concrete inputs; the untouched metric vector and the
fixed-size binomial metric vector. -/
theorem xe_ndcg_loss_preserves_metrics_witness :
    xeNdcgLossFn (fun _ _ => 0) [] [] (some ⟨[], 0⟩) [some 3, some 4] =
      .ok ((indexNdcg (fun _ _ => 0) ⟨[], 0⟩ [] []).map (fun x => -x),
        [some 3, some 4]) ∧
    (((none : Option ℚ), ([none] : List (Option ℚ))).2.length = 1) := by
  constructor
  · exact (xe_ndcg_loss_preserves_metrics (fun x => x) (fun x => x)
      (fun x => x) (fun _ _ => 0) 3 [] [] [] [] ⟨[], 0⟩ [some 3, some 4]).1
  · exact (xe_ndcg_loss_preserves_metrics (fun x => x) (fun x => x)
      (fun x => x) (fun _ _ => 0) 3 [] [] [] [] ⟨[], 0⟩ [some 3, some 4]).2.1
      (none, [none]) (by simp [binomialLossFn, listResize])

/-! ## `UpdatePredictions` (C8) -/

/-- Outcome of an `UpdatePredictions` call together with the state of the
caller's predictions vector: `err` carries the `absl::InternalError` message
and the (untouched) predictions, `ok` carries the updated predictions and the
mean absolute contribution. -/
inductive UpdResult where
  | err (msg : String) (predictions : List ℚ)
  | ok (predictions : List ℚ) (mean_abs : ℚ)

/-- `UpdatePredictionWithSingleUnivariateTree`: add the tree's leaf value at
every row; also accumulate the sum of absolute leaf values, divided by the
row count at the end. -/
def univariateUpdate {α : Type _} (tree : α → ℚ) (rows : List α)
    (predictions : List ℚ) : List ℚ × ℚ :=
  let st := rows.enum.foldl
    (fun (a : List ℚ × ℚ) ir =>
      let v := tree ir.2
      (a.1.set ir.1 (a.1.getD ir.1 0 + v), a.2 + |v|))
    (predictions, 0)
  (st.1, st.2 / rows.length)

/-- `UpdatePredictionWithMultipleUnivariateTrees`: tree `grad_idx`
contributes at flat position `grad_idx + example_idx * num_trees`. -/
def multivariateUpdate {α : Type _} (trees : List (α → ℚ)) (rows : List α)
    (predictions : List ℚ) : List ℚ × ℚ :=
  let num_trees := trees.length
  let st := rows.enum.foldl
    (fun (a : List ℚ × ℚ) ir =>
      trees.enum.foldl
        (fun (b : List ℚ × ℚ) gt =>
          let v := gt.2 ir.2
          (b.1.set (gt.1 + ir.1 * num_trees)
            (b.1.getD (gt.1 + ir.1 * num_trees) 0 + v), b.2 + |v|))
        a)
    (predictions, 0)
  (st.1, st.2 / rows.length)

/-- The `UpdatePredictions` method of each loss: all univariate losses
demand exactly one tree, the multinomial loss demands `dimension` trees;
otherwise `InternalError("Wrong number of trees")` is returned before the
predictions are touched. -/
def lossUpdatePredictions {α : Type _} (loss : LossKind) (dimension : ℕ)
    (trees : List (α → ℚ)) (rows : List α) (predictions : List ℚ) :
    UpdResult :=
  match loss with
  | .binomialLogLikelihood =>
      if trees.length ≠ 1 then .err "Wrong number of trees" predictions
      else
        let r := univariateUpdate (trees.headI) rows predictions
        .ok r.1 r.2
  | .squaredError =>
      if trees.length ≠ 1 then .err "Wrong number of trees" predictions
      else
        let r := univariateUpdate (trees.headI) rows predictions
        .ok r.1 r.2
  | .multinomialLogLikelihood =>
      if trees.length ≠ dimension then .err "Wrong number of trees" predictions
      else
        let r := multivariateUpdate trees rows predictions
        .ok r.1 r.2
  | .lambdaMartNdcg5 =>
      if trees.length ≠ 1 then .err "Wrong number of trees" predictions
      else
        let r := univariateUpdate (trees.headI) rows predictions
        .ok r.1 r.2
  | .xeNdcgMart =>
      if trees.length ≠ 1 then .err "Wrong number of trees" predictions
      else
        let r := univariateUpdate (trees.headI) rows predictions
        .ok r.1 r.2

/-- The tree count each loss's `UpdatePredictions` demands. -/
def expectedTreeCount (loss : LossKind) (dimension : ℕ) : ℕ :=
  match loss with
  | .multinomialLogLikelihood => dimension
  | _ => 1

/-! ## C8 theorem -/

/-- C8: `UpdatePredictions` returns `InternalError("Wrong number of trees")`
exactly when the number of trees differs from the loss's expectation (1 for
the univariate losses, `dimension` for multinomial), and in that case the
predictions vector is returned unchanged. -/
theorem update_predictions_wrong_tree_count {α : Type _} (loss : LossKind)
    (dimension : ℕ) (trees : List (α → ℚ)) (rows : List α)
    (predictions : List ℚ) :
    (trees.length ≠ expectedTreeCount loss dimension →
      lossUpdatePredictions loss dimension trees rows predictions =
        .err "Wrong number of trees" predictions) ∧
    (trees.length = expectedTreeCount loss dimension →
      ∀ msg p, lossUpdatePredictions loss dimension trees rows predictions ≠
        .err msg p) := by
  constructor
  · intro hne
    cases loss <;> simp_all [lossUpdatePredictions, expectedTreeCount]
  · intro heq msg p
    cases loss <;> simp_all [lossUpdatePredictions, expectedTreeCount]

/-- C8 (witness): the multinomial loss handed 1 tree for dimension 3 errors
and leaves the predictions `[8, 9]` unchanged; handed 3 trees it does not
error. -/
theorem update_predictions_wrong_tree_count_witness :
    lossUpdatePredictions .multinomialLogLikelihood 3
        [fun _ : Unit => (1 : ℚ)] [()] [8, 9] =
      .err "Wrong number of trees" [8, 9] ∧
    (∀ msg p, lossUpdatePredictions .multinomialLogLikelihood 3
        [fun _ : Unit => (1 : ℚ), fun _ => 2, fun _ => 3] [()] [8, 9] ≠
      .err msg p) := by
  constructor
  · exact (update_predictions_wrong_tree_count .multinomialLogLikelihood 3
      [fun _ : Unit => (1 : ℚ)] [()] [8, 9]).1 (by decide)
  · exact (update_predictions_wrong_tree_count .multinomialLogLikelihood 3
      [fun _ : Unit => (1 : ℚ), fun _ => 2, fun _ => 3] [()] [8, 9]).2
      (by decide)

/-! ## `NDCGLoss::UpdateGradients` (C9)

The gradient and hessian vectors are modelled as functions `ℕ → ℚ`
(zero-filled before the group loop, as in the source). The per-group
processing order of `pred_and_in_ground_idx` — produced in the source by a
shuffle with the caller's RNG followed by a sort by decreasing prediction —
is a parameter `perm` (a permutation of the in-ground positions
`0, …, |items|−1`); every theorem holds for every order. -/

/-- `kNDCG5Truncation = 5`. -/
def kNDCG5Truncation : ℕ := 5

/-- Add `v` to a gradient accumulator at index `i`. -/
def pointAdd (f : ℕ → ℚ) (i : ℕ) (v : ℚ) : ℕ → ℚ :=
  fun x => if x = i then f x + v else f x

/-- Everything the inner pair loop of one group reads. -/
structure NdcgGroupCtx where
  cfg : GBTConfig
  termF : ℚ → ℕ → ℚ
  expF : ℚ → ℚ
  items : List RItem
  predictions : List ℚ
  utility_norm_factor : ℚ

/-- The body of the pair loop of `NDCGLoss::UpdateGradients`.
`x = (item_1_idx, in_ground_idx_1)` and `y = (item_2_idx, in_ground_idx_2)`
are (sorted rank, relevance-rank) index pairs; a pair with equal relevances
is skipped, otherwise `±unit_grad` is accumulated into the two examples'
gradients and `unit_second_order` into both hessians. `termF` abstracts
`metric::NDCGCalculator::Term` (`metric/ranking_ndcg.h`, not under `src/`). -/
def pairUpdate (ctx : NdcgGroupCtx) (x y : ℕ × ℕ)
    (gh : (ℕ → ℚ) × (ℕ → ℚ)) : (ℕ → ℚ) × (ℕ → ℚ) :=
  let it1 := ctx.items.getD x.2 default
  let it2 := ctx.items.getD y.2 default
  if it1.relevance = it2.relevance then gh
  else
    let pred_1 := ctx.predictions.getD it1.example_idx 0
    let pred_2 := ctx.predictions.getD it2.example_idx 0
    let delta_utility :=
      |(if x.1 < kNDCG5Truncation then
          ctx.termF it2.relevance x.1 - ctx.termF it1.relevance x.1 else 0) +
        (if y.1 < kNDCG5Truncation then
          ctx.termF it1.relevance y.1 - ctx.termF it2.relevance y.1 else 0)| *
        ctx.utility_norm_factor
    let signed_lambda_loss := ctx.cfg.lambda_loss -
      2 * ctx.cfg.lambda_loss * (if y.2 ≤ x.2 then 1 else 0)
    let sigmoid := 1 / (1 + ctx.expF (signed_lambda_loss * (pred_1 - pred_2)))
    let unit_grad := signed_lambda_loss * sigmoid * delta_utility
    let unit_second_order := delta_utility * sigmoid * (1 - sigmoid) *
      (ctx.cfg.lambda_loss * ctx.cfg.lambda_loss)
    (pointAdd (pointAdd gh.1 it1.example_idx unit_grad)
        it2.example_idx (-unit_grad),
      pointAdd (pointAdd gh.2 it1.example_idx unit_second_order)
        it2.example_idx unit_second_order)

/-- The double loop over ordered pairs `item_1_idx < item_2_idx`. -/
def pairLoop (ctx : NdcgGroupCtx) :
    List (ℕ × ℕ) → (ℕ → ℚ) × (ℕ → ℚ) → (ℕ → ℚ) × (ℕ → ℚ)
  | [], gh => gh
  | x :: rest, gh =>
      pairLoop ctx rest (rest.foldl (fun a y => pairUpdate ctx x y a) gh)

/-- One group of `NDCGLoss::UpdateGradients`: the NDCG normalization factor
(`1` when `gradient_use_non_normalized_dcg`), then the pair loop over the
order `perm`. -/
def ndcgGroupProcess (cfg : GBTConfig) (termF : ℚ → ℕ → ℚ) (expF : ℚ → ℚ)
    (group : RGroup) (predictions : List ℚ) (perm : List ℕ)
    (gh : (ℕ → ℚ) × (ℕ → ℚ)) : (ℕ → ℚ) × (ℕ → ℚ) :=
  let utility_norm_factor :=
    if cfg.gradient_use_non_normalized_dcg then 1
    else 1 / ((List.range (min kNDCG5Truncation group.items.length)).map
        (fun rank => termF (group.items.getD rank default).relevance rank)).sum
  pairLoop
    { cfg := cfg, termF := termF, expF := expF, items := group.items,
      predictions := predictions, utility_norm_factor := utility_norm_factor }
    perm.enum gh

/-- `NDCGLoss::UpdateGradients`: zero-fill both accumulators, then process
every group of the ranking index. -/
def ndcgUpdateGradients (cfg : GBTConfig) (termF : ℚ → ℕ → ℚ)
    (expF : ℚ → ℚ) (index : RankingIndex) (predictions : List ℚ)
    (perms : RGroup → List ℕ) : (ℕ → ℚ) × (ℕ → ℚ) :=
  index.groups.foldl
    (fun gh group =>
      ndcgGroupProcess cfg termF expF group predictions (perms group) gh)
    (fun _ => 0, fun _ => 0)

/-- The set of example indices of a group's items. -/
def groupExamples (g : RGroup) : Finset ℕ :=
  (g.items.map (fun it => it.example_idx)).toFinset

/-! ## C9 lemmas -/

theorem sum_pointAdd (f : ℕ → ℚ) (i : ℕ) (v : ℚ) (S : Finset ℕ) :
    (∑ x ∈ S, pointAdd f i v x) =
      (∑ x ∈ S, f x) + (if i ∈ S then v else 0) := by
  unfold pointAdd
  have : ∀ x, (if x = i then f x + v else f x) =
      f x + (if x = i then v else 0) := by
    intro x
    split_ifs <;> simp
  simp only [this, Finset.sum_add_distrib, Finset.sum_ite_eq' S i fun _ => v]

/-- The example index touched through in-ground position `j`. -/
def ctxExample (ctx : NdcgGroupCtx) (j : ℕ) : ℕ :=
  (ctx.items.getD j default).example_idx

/-- A pair update between two examples of `S` does not change the gradient
sum over `S` (the `+unit_grad` and `−unit_grad` cancel). -/
theorem sum_pairUpdate_mem (ctx : NdcgGroupCtx) (x y : ℕ × ℕ)
    (gh : (ℕ → ℚ) × (ℕ → ℚ)) (S : Finset ℕ)
    (hx : ctxExample ctx x.2 ∈ S) (hy : ctxExample ctx y.2 ∈ S) :
    (∑ e ∈ S, (pairUpdate ctx x y gh).1 e) = ∑ e ∈ S, gh.1 e := by
  by_cases h : (ctx.items.getD x.2 default).relevance =
      (ctx.items.getD y.2 default).relevance
  · simp only [pairUpdate, if_pos h]
  · simp only [pairUpdate, if_neg h]
    rw [sum_pointAdd, sum_pointAdd]
    unfold ctxExample at hx hy
    rw [if_pos hy, if_pos hx]
    ring

/-- A pair update between two examples outside `S` does not change the
gradient sum over `S`. -/
theorem sum_pairUpdate_not_mem (ctx : NdcgGroupCtx) (x y : ℕ × ℕ)
    (gh : (ℕ → ℚ) × (ℕ → ℚ)) (S : Finset ℕ)
    (hx : ctxExample ctx x.2 ∉ S) (hy : ctxExample ctx y.2 ∉ S) :
    (∑ e ∈ S, (pairUpdate ctx x y gh).1 e) = ∑ e ∈ S, gh.1 e := by
  by_cases h : (ctx.items.getD x.2 default).relevance =
      (ctx.items.getD y.2 default).relevance
  · simp only [pairUpdate, if_pos h]
  · simp only [pairUpdate, if_neg h]
    rw [sum_pointAdd, sum_pointAdd]
    unfold ctxExample at hx hy
    rw [if_neg hy, if_neg hx]
    ring

/-- The pair loop preserves the gradient sum over `S` as soon as every
processed in-ground position touches an example on one single side of `S`. -/
theorem sum_pairLoop (ctx : NdcgGroupCtx) (l : List (ℕ × ℕ))
    (gh : (ℕ → ℚ) × (ℕ → ℚ)) (S : Finset ℕ)
    (h : (∀ p ∈ l, ctxExample ctx p.2 ∈ S) ∨
      (∀ p ∈ l, ctxExample ctx p.2 ∉ S)) :
    (∑ e ∈ S, (pairLoop ctx l gh).1 e) = ∑ e ∈ S, gh.1 e := by
  induction l generalizing gh with
  | nil => rfl
  | cons x rest ih =>
      have hfold : ∀ (gh0 : (ℕ → ℚ) × (ℕ → ℚ)),
          (∑ e ∈ S, (rest.foldl (fun a y => pairUpdate ctx x y a) gh0).1 e) =
            ∑ e ∈ S, gh0.1 e := by
        clear ih
        induction rest with
        | nil => intro gh0; rfl
        | cons y ys ih2 =>
            intro gh0
            rw [List.foldl_cons]
            rw [ih2 ?_ (pairUpdate ctx x y gh0)]
            · rcases h with h | h
              · exact sum_pairUpdate_mem ctx x y gh0 S
                  (h x (List.mem_cons_self _ _))
                  (h y (List.mem_cons_of_mem _ (List.mem_cons_self _ _)))
              · exact sum_pairUpdate_not_mem ctx x y gh0 S
                  (h x (List.mem_cons_self _ _))
                  (h y (List.mem_cons_of_mem _ (List.mem_cons_self _ _)))
            · rcases h with h | h
              · exact Or.inl (fun p hp => h p (by
                  rcases List.mem_cons.mp hp with rfl | hp
                  · exact List.mem_cons_self _ _
                  · exact List.mem_cons_of_mem _ (List.mem_cons_of_mem _ hp)))
              · exact Or.inr (fun p hp => h p (by
                  rcases List.mem_cons.mp hp with rfl | hp
                  · exact List.mem_cons_self _ _
                  · exact List.mem_cons_of_mem _ (List.mem_cons_of_mem _ hp)))
      rw [pairLoop]
      rw [ih (rest.foldl (fun a y => pairUpdate ctx x y a) gh) ?_]
      · exact hfold gh
      · rcases h with h | h
        · exact Or.inl (fun p hp => h p (List.mem_cons_of_mem _ hp))
        · exact Or.inr (fun p hp => h p (List.mem_cons_of_mem _ hp))

/-- A valid in-ground position of a group touches one of the group's
examples. -/
theorem ctxExample_mem_groupExamples (g : RGroup) (ctx : NdcgGroupCtx)
    (hitems : ctx.items = g.items) (j : ℕ) (hj : j < g.items.length) :
    ctxExample ctx j ∈ groupExamples g := by
  unfold ctxExample groupExamples
  rw [hitems]
  rw [List.getD_eq_getElem?_getD, List.getElem?_eq_getElem hj]
  simp only [Option.getD_some, List.mem_toFinset]
  exact List.mem_map.mpr ⟨g.items[j], List.getElem_mem hj, rfl⟩

/-! ## C9 theorem -/

/-- C9: after `NDCGLoss::UpdateGradients` (zero-filled accumulators, then
per-group pair processing), the sum of the gradient entries over a group's
examples is zero: every processed ordered pair adds `+unit_grad` to one of
the group's examples and `−unit_grad` to the other, so contributions cancel
pairwise. Hypotheses: every processing order addresses valid in-ground
positions, and every group's example set is inside or disjoint from the
target group's (as holds for the partition built by `Initialize`). -/
theorem ndcg_update_gradients_group_sum_zero (cfg : GBTConfig)
    (termF : ℚ → ℕ → ℚ) (expF : ℚ → ℚ) (index : RankingIndex)
    (predictions : List ℚ) (perms : RGroup → List ℕ) (G : RGroup)
    (hG : G ∈ index.groups)
    (hvalid : ∀ G' ∈ index.groups, ∀ j ∈ perms G', j < G'.items.length)
    (hsep : ∀ G' ∈ index.groups, groupExamples G' ⊆ groupExamples G ∨
      Disjoint (groupExamples G') (groupExamples G)) :
    (∑ e ∈ groupExamples G,
      (ndcgUpdateGradients cfg termF expF index predictions perms).1 e) = 0 := by
  unfold ndcgUpdateGradients
  suffices hgen : ∀ gs : List RGroup,
      (∀ G' ∈ gs, ∀ j ∈ perms G', j < G'.items.length) →
      (∀ G' ∈ gs, groupExamples G' ⊆ groupExamples G ∨
        Disjoint (groupExamples G') (groupExamples G)) →
      ∀ gh : (ℕ → ℚ) × (ℕ → ℚ),
      (∑ e ∈ groupExamples G,
        (gs.foldl (fun gh group =>
          ndcgGroupProcess cfg termF expF group predictions (perms group) gh)
          gh).1 e) = ∑ e ∈ groupExamples G, gh.1 e by
    rw [hgen index.groups hvalid hsep]
    simp
  intro gs
  induction gs with
  | nil =>
      intro _ _ gh
      rfl
  | cons g rest ih =>
      intro hv hs gh
      rw [List.foldl_cons,
        ih (fun G' hG' => hv G' (List.mem_cons_of_mem _ hG'))
          (fun G' hG' => hs G' (List.mem_cons_of_mem _ hG'))
          (ndcgGroupProcess cfg termF expF g predictions (perms g) gh)]
      simp only [ndcgGroupProcess]
      apply sum_pairLoop
      rcases hs g (List.mem_cons_self _ _) with hsub | hd
      · refine Or.inl ?_
        rw [List.forall_mem_enum]
        intro i hi
        exact hsub (ctxExample_mem_groupExamples g _ rfl _
          (hv g (List.mem_cons_self _ _) _ (List.getElem_mem hi)))
      · refine Or.inr ?_
        rw [List.forall_mem_enum]
        intro i hi
        exact Finset.disjoint_left.mp hd
          (ctxExample_mem_groupExamples g _ rfl _
            (hv g (List.mem_cons_self _ _) _ (List.getElem_mem hi)))

/-- C9 (witness): a single two-item group (relevances 2 and 1 at examples 0
and 1), `lambda_loss = 1`, processing order `[0, 1]`. -/
theorem ndcg_update_gradients_group_sum_zero_witness :
    (∑ e ∈ groupExamples ⟨1, [⟨2, 0⟩, ⟨1, 1⟩]⟩,
      (ndcgUpdateGradients ⟨1, 0, 0, 1, false, 1, false⟩ (fun r _ => r)
        (fun _ => 1) ⟨[⟨1, [⟨2, 0⟩, ⟨1, 1⟩]⟩], 2⟩ [0, 0]
        (fun _ => [0, 1])).1 e) = 0 :=
  ndcg_update_gradients_group_sum_zero ⟨1, 0, 0, 1, false, 1, false⟩
    (fun r _ => r) (fun _ => 1) ⟨[⟨1, [⟨2, 0⟩, ⟨1, 1⟩]⟩], 2⟩ [0, 0]
    (fun _ => [0, 1]) ⟨1, [⟨2, 0⟩, ⟨1, 1⟩]⟩ (by simp) (by decide) (by decide)

end YDF
